import Mathlib

/-!
# Audit interceptor of `fk-lib-log-audit-go` (`audit.go`)

A shallow embedding of the package `auditLog`: the payload coercer `JSONFormatter`,
the duration conversion, the client address derivation, the identity defaults, the
publish step `log` and the unary interceptor `AuditServerUnaryInterceptor`.

Go strings are modelled as lists of Unicode code points.  Every pattern the package
searches for is a single ASCII character, for which replacing on the UTF-8 bytes and
replacing on the code points give the same text.
-/

namespace AuditLog

/-- A Go `string`. -/
abbrev GoString := List Char

/-! ## The Go runtime the package calls -/

namespace strings

/-- Scan of `strings.Replace(s, old, new, -1)` for a non-empty `old`: the text is read
left to right, `skip` counts the characters of a match that are still to be dropped;
at a position where `old` starts, `new` is emitted and the search resumes after the
match (leftmost, non-overlapping matches). -/
def replaceScan (old new : GoString) : Nat → GoString → GoString
  | _, [] => []
  | skip + 1, _ :: cs => replaceScan old new skip cs
  | 0, c :: cs =>
    if old.isPrefixOf (c :: cs) then new ++ replaceScan old new (old.length - 1) cs
    else c :: replaceScan old new 0 cs

/-- With an empty `old`, `strings.Replace` puts `new` in front of every character
of `s` and after the last one. -/
def replaceEmpty (new : GoString) : GoString → GoString
  | [] => new
  | c :: cs => new ++ c :: replaceEmpty new cs

/-- The call `strings.Replace(s, old, new, -1)`: every non-overlapping occurrence of
`old` in `s` is replaced by `new`.  The count argument is fixed to `-1`, the only value
the package passes. -/
def Replace (s old new : GoString) : GoString :=
  if old = new then s
  else if old = [] then replaceEmpty new s
  else replaceScan old new 0 s

/-- Scan of `strings.Split(s, sep)` for a non-empty `sep`: `cur` holds the current
piece in reverse, `skip` the characters of a separator still to be dropped. -/
def splitScan (sep : GoString) : Nat → GoString → GoString → List GoString
  | _, cur, [] => [cur.reverse]
  | skip + 1, cur, _ :: cs => splitScan sep skip cur cs
  | 0, cur, c :: cs =>
    if sep.isPrefixOf (c :: cs) then cur.reverse :: splitScan sep (sep.length - 1) [] cs
    else splitScan sep 0 (c :: cur) cs

/-- The call `strings.Split(s, sep)`: the pieces of `s` between the occurrences of
`sep`; an empty `sep` splits after every character. -/
def Split (s sep : GoString) : List GoString :=
  if sep = [] then s.map fun c => [c] else splitScan sep 0 [] s

/-- The call `strings.ToLower(s)` (on the ASCII letters). -/
def ToLower (s : GoString) : GoString := s.map Char.toLower

end strings

/-- A finite `float32`: the value `(-1)^neg * mant * 2^exp`; zero has `mant = 0`, any
other value has `2^23 ≤ mant < 2^24`.  Infinities, NaN and the exponent bounds are left
out: the package only converts an `int64` and divides it by `1000`, which stays between
`10^-3` and `10^16` in magnitude. -/
structure Float32 where
  neg : Bool
  mant : Nat
  exp : Int
  deriving DecidableEq, Repr

/-- Bring `p / q * 2^e` into the form `p1 / q1 * 2^e1` with `2^23 ≤ p1 / q1 < 2^24`, by
doubling `p` or `q`.  At most `p + q + 24` doublings are ever needed. -/
def scaleToMantissa : Nat → Nat → Nat → Int → Nat × Nat × Int
  | 0, p, q, e => (p, q, e)
  | fuel + 1, p, q, e =>
    if p < q * 2 ^ 23 then scaleToMantissa fuel (2 * p) q (e - 1)
    else if q * 2 ^ 24 ≤ p then scaleToMantissa fuel p (2 * q) (e + 1)
    else (p, q, e)

/-- The `float32` nearest to `p / q * 2^e0`, ties to the even mantissa (IEEE 754
round-to-nearest-even), with the sign `neg`. -/
def roundFloat32 (neg : Bool) (p q : Nat) (e0 : Int) : Float32 :=
  if p = 0 ∨ q = 0 then ⟨false, 0, 0⟩
  else
    let (p1, q1, e) := scaleToMantissa (p + q + 24) p q e0
    let m := p1 / q1
    let r := p1 % q1
    let m1 := if q1 < 2 * r ∨ (2 * r = q1 ∧ m % 2 = 1) then m + 1 else m
    if m1 = 2 ^ 24 then ⟨neg, 2 ^ 23, e + 1⟩ else ⟨neg, m1, e⟩

/-- The conversion `float32(n)` of an integer. -/
def float32OfInt (n : Int) : Float32 := roundFloat32 (decide (n < 0)) n.natAbs 1 0

/-- The quotient `x / y` of two `float32` values, `y` not zero. -/
def Float32.div (x y : Float32) : Float32 :=
  roundFloat32 (x.neg != y.neg) x.mant y.mant (x.exp - y.exp)

/-- Wrap an integer into the range of `int64` (and of `int` on a 64-bit platform). -/
def wrapInt64 (v : Int) : Int := (v + 2 ^ 63) % 2 ^ 64 - 2 ^ 63

namespace strconv

/-- The decimal digits of `n`, most significant first, in front of `acc`. -/
def digitsAux : Nat → Nat → List Nat → List Nat
  | 0, _, acc => acc
  | fuel + 1, n, acc => if n = 0 then acc else digitsAux fuel (n / 10) (n % 10 :: acc)

/-- The decimal digits of `n`, most significant first; no digit at all for `0`. -/
def decimalDigits (n : Nat) : List Nat := digitsAux n n []

/-- The character of a decimal digit. -/
def digitChar (d : Nat) : Char := Char.ofNat (48 + d)

/-- The call `strconv.FormatInt(v, 10)`. -/
def FormatInt (v : Int) : GoString :=
  if v = 0 then ['0']
  else if v < 0 then '-' :: (decimalDigits v.natAbs).map digitChar
  else (decimalDigits v.natAbs).map digitChar

/-- Drop the zeros at the end of a digit list. -/
def trimZeros (ds : List Nat) : List Nat := (ds.reverse.dropWhile (· = 0)).reverse

/-- A decimal number as `strconv` keeps it: the digits `d` and the position `dp` of the
decimal point, for the value `0.d * 10^dp`. -/
structure Decimal where
  d : List Nat
  dp : Int
  deriving DecidableEq, Repr

/-- The digit walk of `roundShortest`.  `x`, `lo` and `hi` are the numerators over `den`
of the float and of the halfway points to its two neighbours, `incl` says whether the
halfway points themselves round to the float, `k` is the exponent of the decimal
position tried, from high to low.  At the first position where cutting the value
(`down`) or cutting and adding one unit (`up`) stays inside the interval, the walk
stops: with both inside, the nearer one is taken (ties to the even digit). -/
def shortestFrom (x lo hi den : Nat) (incl : Bool) : Nat → Int → Decimal
  | 0, _ => ⟨[], 0⟩
  | fuel + 1, k =>
    let t := 10 ^ (-k).toNat
    let u := den * 10 ^ k.toNat
    let down := (x * t) / u
    let dn := down * u
    let up := dn + u
    let okdown := lo * t < dn ∨ (incl = true ∧ dn = lo * t)
    let okup := up < hi * t ∨ (incl = true ∧ up = hi * t)
    let r := x * t - dn
    let roundUp := u < 2 * r ∨ (2 * r = u ∧ down % 2 = 1)
    let pick (n : Nat) : Decimal :=
      ⟨trimZeros (decimalDigits n), (decimalDigits n).length + k⟩
    if okdown ∧ okup then (if roundUp then pick (down + 1) else pick down)
    else if okdown then pick down
    else if okup then pick (down + 1)
    else shortestFrom x lo hi den incl fuel (k - 1)

/-- The shortest decimal that rounds to the `float32` and to no other one. -/
def shortestDecimal (f : Float32) : Decimal :=
  if f.mant = 0 then ⟨[], 0⟩
  else
    let s : Nat := (-f.exp).toNat + 2
    let sh : Nat := (f.exp + s).toNat
    let x := f.mant * 2 ^ sh
    let hi := (2 * f.mant + 1) * 2 ^ (sh - 1)
    let lo :=
      if f.mant = 2 ^ 23 ∧ f.exp ≠ -149 then (4 * f.mant - 1) * 2 ^ (sh - 2)
      else (2 * f.mant - 1) * 2 ^ (sh - 1)
    shortestFrom x lo hi (2 ^ s) (f.mant % 2 = 0) 100 39

/-- The digit of `ds` at the index `j`, `0` outside of `ds`. -/
def digitAt (ds : List Nat) (j : Int) : Char :=
  if 0 ≤ j then digitChar (ds.getD j.toNat 0) else '0'

/-- The layout `d.ddde±dd` with `prec` digits after the point. -/
def fmtE (neg : Bool) (d : Decimal) (prec : Nat) : GoString :=
  let sign : GoString := if neg then ['-'] else []
  let first : Char := digitChar (d.d.getD 0 0)
  let frac : GoString :=
    if 0 < prec then '.' :: (List.range prec).map (fun i => digitChar (d.d.getD (i + 1) 0))
    else []
  let exp : Int := if d.d = [] then 0 else d.dp - 1
  let esign : Char := if exp < 0 then '-' else '+'
  let e := exp.natAbs
  let edigits : GoString :=
    if e < 10 then ['0', digitChar e] else (decimalDigits e).map digitChar
  sign ++ first :: frac ++ 'e' :: esign :: edigits

/-- The layout `ddd.ddd` with `prec` digits after the point. -/
def fmtF (neg : Bool) (d : Decimal) (prec : Nat) : GoString :=
  let sign : GoString := if neg then ['-'] else []
  let int : GoString :=
    if 0 < d.dp then (List.range d.dp.toNat).map (fun i => digitChar (d.d.getD i 0))
    else ['0']
  let frac : GoString :=
    if 0 < prec then '.' :: (List.range prec).map (fun i => digitAt d.d (d.dp + i)) else []
  sign ++ int ++ frac

/-- The call `strconv.FormatFloat(f, 'g', -1, 32)`: the shortest decimal, in the
exponent layout when the decimal exponent is below `-4` or at least `6`. -/
def FormatFloat32 (f : Float32) : GoString :=
  let d := shortestDecimal f
  let exp := d.dp - 1
  if exp < -4 ∨ 6 ≤ exp then fmtE f.neg d (d.d.length - 1)
  else fmtF f.neg d (d.d.length - d.dp).toNat

/-- The value of a text made of decimal digits only, `none` when another character
occurs. -/
def digitsValue : GoString → Nat → Option Nat
  | [], acc => some acc
  | c :: cs, acc =>
    if '0' ≤ c ∧ c ≤ '9' then digitsValue cs (acc * 10 + (c.toNat - 48)) else none

/-- The call `strconv.Atoi(s)` on a 64-bit platform, as the pair of the integer and
of whether the error is `nil`: a text that is not an optional sign followed by one or
more decimal digits gives `0` and an error, a number out of the range of `int` gives
the nearest bound and an error. -/
def Atoi (s : GoString) : Int × Bool :=
  match s with
  | [] => (0, false)
  | c :: rest =>
    let neg := decide (c = '-')
    let ds := if c = '-' ∨ c = '+' then rest else s
    if ds = [] then (0, false)
    else
      match digitsValue ds 0 with
      | none => (0, false)
      | some n =>
        if neg = false ∧ 2 ^ 63 ≤ n then (2 ^ 63 - 1, false)
        else if neg = true ∧ 2 ^ 63 < n then (-(2 ^ 63), false)
        else (if neg then -(n : Int) else (n : Int), true)

end strconv

/-- A value of the type `interface{}`, by its dynamic type: the `nil` interface, an
`int64`, a `float32`, or a value of any other type, which is kept with the text that
the verb `%v` prints for it. -/
inductive Iface where
  | nil
  | int64 (v : Int)
  | float32 (f : Float32)
  | other (text : GoString)
  deriving DecidableEq, Repr

/-- The type assertion `x.(int64)`: `none` stands for the run-time panic of an
assertion on a value of another dynamic type. -/
def Iface.assertInt64 : Iface → Option Int
  | .int64 v => some v
  | _ => none

namespace fmt

/-- The call `fmt.Sprintf("%v", x)`. -/
def Sprintv : Iface → GoString
  | .nil => "<nil>".toList
  | .int64 v => strconv.FormatInt v
  | .float32 f => strconv.FormatFloat32 f
  | .other text => text

end fmt

namespace codes

/-- The code `codes.OK`. -/
def OK : Nat := 0

/-- The code `codes.Unknown`. -/
def Unknown : Nat := 2

/-- The code `codes.DataLoss`. -/
def DataLoss : Nat := 15

end codes

/-- A non-nil value of the type `error`: the gRPC status code it carries, if it carries
a status, and its message. -/
structure GoError where
  grpcCode : Option Nat
  msg : GoString
  deriving DecidableEq, Repr

namespace status

/-- The call `status.Code(err)`: `OK` for the `nil` error, the carried code for an error
with a status, `Unknown` for any other error. -/
def Code (err : Option GoError) : Nat :=
  match err with
  | none => codes.OK
  | some e => e.grpcCode.getD codes.Unknown

/-- The call `status.Errorf(c, msg)`: an error with the code `c`, the `nil` error when
`c` is `OK`. -/
def Errorf (c : Nat) (msg : GoString) : Option GoError :=
  if c = codes.OK then none else some ⟨some c, msg⟩

end status

/-- The type `metadata.MD`: header names with their values. -/
abbrev MD := List (GoString × List GoString)

/-- The method `md.Get(k)`: the values under the lower-cased key, none when the key is
absent. -/
def MD.Get (md : MD) (k : GoString) : List GoString :=
  (md.lookup (strings.ToLower k)).getD []

/-- The tags of `ctxauth.Extract(ctx)`: `Has` and the map of `Values()`, in which a
missing key reads as the `nil` interface. -/
structure AuthTags where
  Has : GoString → Bool
  Values : GoString → Iface

/-- What the interceptor reads of a `context.Context`: the inbound metadata, when there
is one, and the identity tags. -/
structure Context where
  incomingMD : Option MD
  auth : AuthTags

namespace metadata

/-- The call `metadata.FromIncomingContext(ctx)`; `none` is the result `ok = false`. -/
def FromIncomingContext (ctx : Context) : Option MD := ctx.incomingMD

end metadata

/-- The type `grpc.UnaryServerInfo`. -/
structure UnaryServerInfo where
  FullMethod : GoString

/-! ## The data model (audit.go 19-70) -/

structure FKConfig where
  DomainId : Int
  ProjectId : Int
  ServiceName : GoString
  deriving DecidableEq, Repr

structure request where
  Method : GoString
  Url : GoString
  UrlRoute : GoString
  Query : GoString
  Headers : GoString
  Timestamp : GoString
  Ip : GoString
  Body : GoString
  deriving DecidableEq, Repr

structure response where
  StatusCode : Int
  Timestamp : GoString
  Elapsed : Int
  Body : GoString
  deriving DecidableEq, Repr

structure message where
  Request : request
  Response : response
  deriving DecidableEq, Repr

structure Audit where
  LogType : GoString
  Message : message
  DomainId : Int
  SrcDomainId : Int
  ServiceName : GoString
  SrcServiceName : GoString
  ProjectId : Int
  SrcProjectId : Int
  UserId : Int
  UserType : Int
  ObjectTypeId : Int
  Action : GoString
  OsEnv : GoString
  deriving DecidableEq, Repr

/-- The zero value of `Audit` (`var auditLog Audit`). -/
def Audit.zero : Audit :=
  { LogType := [], Message := ⟨⟨[], [], [], [], [], [], [], []⟩, ⟨0, [], 0, []⟩⟩,
    DomainId := 0, SrcDomainId := 0, ServiceName := [], SrcServiceName := [],
    ProjectId := 0, SrcProjectId := 0, UserId := 0, UserType := 0, ObjectTypeId := 0,
    Action := [], OsEnv := [] }

/-- The type `amqp.Publishing`, with the two fields the package sets. -/
structure Publishing where
  ContentType : GoString
  Body : GoString
  deriving DecidableEq, Repr

/-! ## The duration conversion (audit.go 113-138) -/

/-- The function `durationToMilliseconds`: `float32(duration.Nanoseconds()/1000) / 1000`,
the integer division of Go cutting towards zero. -/
def durationToMilliseconds (duration : Int) : Float32 :=
  (float32OfInt (duration.tdiv 1000)).div (float32OfInt 1000)

/-- The function `DurationToTimeMillisField`. -/
def DurationToTimeMillisField (duration : Int) : GoString × Iface :=
  ("grpc.time_ms".toList, .float32 (durationToMilliseconds duration))

/-- The function `FuncErrorToCode`. -/
def FuncErrorToCode (err : Option GoError) : Nat := status.Code err

/-! ## The package state and its collaborators -/

/-- The package-level variables of audit.go and the channel behind `ch`. -/
structure Package where
  /-- The method `ch.Publish(exchange, key, mandatory, immediate, msg)`. -/
  publish : GoString → GoString → Bool → Bool → Publishing → Option GoError
  MQ_EXCHANGE_AUDIT_LOG : GoString
  osEnv : GoString
  fkConfig : FKConfig
  DefaultErrorToCode : Option GoError → Nat
  DefaultDurationToField : Int → GoString × Iface

/-- The library functions whose results the package only copies: `path.Dir`, which
never returns the empty text, `path.Base`, and `json.Marshal` on the metadata
(as the text of its bytes) and on the record. -/
structure Library where
  pathDir : GoString → { s : GoString // s ≠ [] }
  pathBase : GoString → GoString
  marshalMD : MD → GoString
  marshalAudit : Audit → Except GoError GoString

/-- The readings of the clock during one call: `time.Now().UnixMilli()` before the
handler, `time.Since(startTime)` in nanoseconds and `time.Now().UnixMilli()` after it. -/
structure Clock where
  startMs : Int
  since : Int
  endMs : Int

/-- The values the package variables have when no client has reassigned them. -/
def Package.default (publish : GoString → GoString → Bool → Bool → Publishing → Option GoError)
    (env : GoString) (cfg : FKConfig) : Package :=
  { publish := publish, MQ_EXCHANGE_AUDIT_LOG := "audit.log.send.direct".toList,
    osEnv := env, fkConfig := cfg, DefaultErrorToCode := FuncErrorToCode,
    DefaultDurationToField := DurationToTimeMillisField }

/-! ## `log` (audit.go 93-111) -/

/-- The function `log`: the record is serialised, then published on the exchange with
an empty routing key, neither mandatory nor immediate; the first error is returned. -/
def log (P : Package) (L : Library) (message : Audit) : Option GoError :=
  match L.marshalAudit message with
  | .error err => some err
  | .ok m =>
    match P.publish P.MQ_EXCHANGE_AUDIT_LOG [] false false
        { ContentType := "application/json".toList, Body := m } with
    | some err => some err
    | none => none

/-! ## `JSONFormatter` (audit.go 222-230) -/

/-- The function `JSONFormatter` of audit.go.  In the string literals `\x7b` is the
opening brace and `\x7d` the closing brace. -/
def JSONFormatter (payload : GoString) : GoString :=
  let payload := "\x7b".toList ++ payload ++ "\x7d".toList
  if payload = "\x7b\x7d".toList then payload
  else
    let json := strings.Replace payload " ".toList ",\"".toList
    let json := strings.Replace json "\x7b".toList "\x7b\"".toList
    let json := strings.Replace json ":".toList "\":".toList
    json

/-! ## `AuditServerUnaryInterceptor` (audit.go 140-220) -/

/-- Lines 156-163: the client address taken from the metadata. -/
def clientIpOf (md : MD) : GoString :=
  let xForwardFor := md.Get "x-forwarded-for".toList
  match xForwardFor with
  | [] => []
  | first :: _ =>
    if first ≠ [] then
      match strings.Split first ",".toList with
      | [] => []
      | ip :: _ => ip
    else []

/-- Lines 164-165: the text of the duration field under `%v`, read back by
`strconv.Atoi`, whose error is dropped. -/
def elapsedOf (durVal : Iface) : Int :=
  let str := fmt.Sprintv durVal
  (strconv.Atoi str).1

/-- Lines 173-188, one identity claim: the default unless the tags have the key, then
`int(auth[key].(int64))`; `none` is the panic of the type assertion. -/
def claimOr (auth : AuthTags) (key : GoString) (dflt : Int) : Option Int :=
  if auth.Has key then (auth.Values key).assertInt64.map wrapInt64 else some dflt

/-- Lines 156-212: the record of one call, from the values in scope after the metadata
check; `none` is a panic of one of the type assertions. -/
def buildAudit (P : Package) (L : Library) (ctx : Context) (md : MD) (req resp : Iface)
    (service method : GoString) (startMs endMs : Int) (code : Nat) (durVal : Iface) :
    Option Audit :=
  let clientIp := clientIpOf md
  let elapsed := elapsedOf durVal
  let header := L.marshalMD md
  let auth := ctx.auth
  (claimOr auth "auth.domainId".toList 100).bind fun srcDomainId =>
  (claimOr auth "auth.projectId".toList 5).bind fun srcProjectId =>
  (claimOr auth "auth.accountId".toList 2).bind fun accountId =>
  (claimOr auth "auth.accountType".toList 1).bind fun accountType =>
  some
    { Audit.zero with
      LogType := "api".toList
      DomainId := P.fkConfig.DomainId
      SrcDomainId := srcDomainId
      ServiceName := P.fkConfig.ServiceName
      ProjectId := P.fkConfig.ProjectId
      SrcProjectId := srcProjectId
      UserId := accountId
      UserType := accountType
      ObjectTypeId := 0
      Action := "request".toList
      OsEnv := P.osEnv
      Message :=
        { Request :=
            { Audit.zero.Message.Request with
              UrlRoute := method
              Method := service
              Timestamp := strconv.FormatInt startMs
              Ip := clientIp
              Headers := header
              Body := JSONFormatter (fmt.Sprintv req) }
          Response :=
            { Elapsed := elapsed
              StatusCode := (code : Int)
              Timestamp := strconv.FormatInt endMs
              Body := JSONFormatter (fmt.Sprintv resp) } } }

/-- What one call of the interceptor did to its collaborators. -/
inductive Event where
  /-- The wrapped handler was invoked on the request. -/
  | handler (req : Iface)
  /-- The function `log` was invoked on the record and returned `res`. -/
  | log (a : Audit) (res : Option GoError)
  deriving DecidableEq, Repr

/-- How one call of the interceptor ended: with the pair it returned, or in a panic. -/
inductive Outcome where
  | returned (resp : Iface) (err : Option GoError)
  | panicked
  deriving DecidableEq, Repr

/-- One call of the interceptor: its end and, in order, its calls of the handler and
of `log`. -/
structure Run where
  outcome : Outcome
  trace : List Event
  deriving DecidableEq, Repr

/-- The function returned by `AuditServerUnaryInterceptor`, on one call. -/
def AuditServerUnaryInterceptor (P : Package) (L : Library) (clock : Clock)
    (ctx : Context) (req : Iface) (info : UnaryServerInfo)
    (handler : Context → Iface → Iface × Option GoError) : Run :=
  let startMs := clock.startMs
  let service := (L.pathDir info.FullMethod).val.tail
  let method := L.pathBase info.FullMethod
  let (resp, handlerError) := handler ctx req
  let code := P.DefaultErrorToCode handlerError
  let durVal := (P.DefaultDurationToField clock.since).2
  let endMs := clock.endMs
  match metadata.FromIncomingContext ctx with
  | none =>
    { outcome := .returned .nil (status.Errorf codes.DataLoss "failed to get metadata".toList)
      trace := [.handler req] }
  | some md =>
    match buildAudit P L ctx md req resp service method startMs endMs code durVal with
    | none => { outcome := .panicked, trace := [.handler req] }
    | some auditLog =>
      match log P L auditLog with
      | some err =>
        { outcome := .returned .nil (some err)
          trace := [.handler req, .log auditLog (some err)] }
      | none =>
        { outcome := .returned resp handlerError
          trace := [.handler req, .log auditLog none] }

/-- The record the interceptor builds on a call whose metadata is `md`. -/
def callRecord (P : Package) (L : Library) (clock : Clock) (ctx : Context) (req : Iface)
    (info : UnaryServerInfo) (handler : Context → Iface → Iface × Option GoError)
    (md : MD) : Option Audit :=
  buildAudit P L ctx md req (handler ctx req).1 (L.pathDir info.FullMethod).val.tail
    (L.pathBase info.FullMethod) clock.startMs clock.endMs
    (P.DefaultErrorToCode (handler ctx req).2) (P.DefaultDurationToField clock.since).2

/-! ## JSON texts (RFC 8259, the grammar `encoding/json` accepts) -/

namespace json

/-- The white space of JSON. -/
def isSpace (c : Char) : Bool := c = ' ' || c = '\t' || c = '\r' || c = '\n'

/-- Drop the leading white space. -/
def skipSpace : GoString → GoString
  | [] => []
  | c :: cs => if isSpace c then skipSpace cs else c :: cs

/-- A hexadecimal digit. -/
def isHex (c : Char) : Bool :=
  ('0' ≤ c && c ≤ '9') || ('a' ≤ c && c ≤ 'f') || ('A' ≤ c && c ≤ 'F')

/-- Where the scanner stands inside a string literal: in the text, after a backslash,
or inside `\uXXXX` with `n` hexadecimal digits to read after the next one. -/
inductive StrState where
  | text
  | escape
  | hex (n : Nat)

/-- The rest of the input after a string literal whose opening quote has been read. -/
def scanString : StrState → GoString → Option GoString
  | _, [] => none
  | .text, c :: cs =>
    if c = '"' then some cs
    else if c = '\\' then scanString .escape cs
    else if c.toNat < 0x20 then none
    else scanString .text cs
  | .escape, c :: cs =>
    if c = 'u' then scanString (.hex 3) cs
    else if c ∈ ['"', '\\', '/', 'b', 'f', 'n', 'r', 't'] then scanString .text cs
    else none
  | .hex n, c :: cs =>
    if isHex c then (match n with
      | 0 => scanString .text cs
      | k + 1 => scanString (.hex k) cs)
    else none

/-- Where the scanner stands inside a number. -/
inductive NumState where
  | neg | zero | int | dot | frac | e | esign | exp
  deriving DecidableEq

/-- A decimal digit. -/
def isDigit (c : Char) : Bool := '0' ≤ c && c ≤ '9'

/-- The states in which a number may end. -/
def NumState.accepting : NumState → Bool
  | .zero | .int | .frac | .exp => true
  | _ => false

/-- One character of a number. -/
def NumState.step (st : NumState) (c : Char) : Option NumState :=
  match st with
  | .neg => if c = '0' then some .zero else if isDigit c then some .int else none
  | .zero => if c = '.' then some .dot else if c = 'e' ∨ c = 'E' then some .e else none
  | .int =>
    if isDigit c then some .int else if c = '.' then some .dot
    else if c = 'e' ∨ c = 'E' then some .e else none
  | .dot => if isDigit c then some .frac else none
  | .frac => if isDigit c then some .frac else if c = 'e' ∨ c = 'E' then some .e else none
  | .e => if c = '+' ∨ c = '-' then some .esign else if isDigit c then some .exp else none
  | .esign => if isDigit c then some .exp else none
  | .exp => if isDigit c then some .exp else none

/-- The rest of the input after the longest number that starts in the state `st`. -/
def scanNumber : NumState → GoString → Option GoString
  | st, [] => if st.accepting then some [] else none
  | st, c :: cs =>
    match st.step c with
    | some st2 => scanNumber st2 cs
    | none => if st.accepting then some (c :: cs) else none

/-- The rest of the input after the word `w`. -/
def scanWord (w s : GoString) : Option GoString :=
  if w.isPrefixOf s then some (s.drop w.length) else none

mutual
/-- The rest of the input after one value; `n` bounds the depth of the descent. -/
def scanValue : Nat → GoString → Option GoString
  | 0, _ => none
  | n + 1, s =>
    match skipSpace s with
    | [] => none
    | c :: cs =>
      if c = '{' then
        (match skipSpace cs with
          | [] => none
          | d :: ds => if d = '}' then some ds else scanMembers n (d :: ds))
      else if c = '[' then
        (match skipSpace cs with
          | [] => none
          | d :: ds => if d = ']' then some ds else scanElements n (d :: ds))
      else if c = '"' then scanString .text cs
      else if c = '-' then scanNumber .neg cs
      else if c = '0' then scanNumber .zero cs
      else if isDigit c then scanNumber .int cs
      else if c = 't' then scanWord "rue".toList cs
      else if c = 'f' then scanWord "alse".toList cs
      else if c = 'n' then scanWord "ull".toList cs
      else none
/-- The rest of the input after the members of an object and its closing brace. -/
def scanMembers : Nat → GoString → Option GoString
  | 0, _ => none
  | n + 1, s =>
    match skipSpace s with
    | [] => none
    | c :: cs =>
      if c = '"' then
        match scanString .text cs with
        | none => none
        | some r1 =>
          match skipSpace r1 with
          | [] => none
          | c2 :: r2 =>
            if c2 = ':' then
              match scanValue n r2 with
              | none => none
              | some r3 =>
                match skipSpace r3 with
                | [] => none
                | c4 :: r4 =>
                  if c4 = ',' then scanMembers n r4
                  else if c4 = '}' then some r4
                  else none
            else none
      else none
/-- The rest of the input after the elements of an array and its closing bracket. -/
def scanElements : Nat → GoString → Option GoString
  | 0, _ => none
  | n + 1, s =>
    match scanValue n s with
    | none => none
    | some r1 =>
      match skipSpace r1 with
      | [] => none
      | c :: r2 =>
        if c = ',' then scanElements n r2
        else if c = ']' then some r2
        else none
end

/-- The text parses as one JSON object, white space around it allowed.  The bound
`s.length + 1` is never reached: every step of the descent first reads a character. -/
def isObject (s : GoString) : Bool :=
  match skipSpace s with
  | [] => false
  | c :: _ =>
    c = '{' &&
      match scanValue (s.length + 1) s with
      | none => false
      | some r => skipSpace r = []

end json

/-- A character that may stand in a key of a flat rendering: not a space, a `{` or a
`:`, which `JSONFormatter` rewrites, and not a quote, a backslash or a control
character, which a JSON string does not hold as they are. -/
def isPlainChar (c : Char) : Bool :=
  c ≠ ' ' && c ≠ '{' && c ≠ ':' && c ≠ '"' && c ≠ '\\' && decide (0x20 ≤ c.toNat)

/-- A text of plain characters. -/
def isPlainText (s : GoString) : Bool := s.all isPlainChar

/-- A decimal integer without sign and without a leading zero. -/
def isUintLiteral : GoString → Bool
  | [] => false
  | [c] => json.isDigit c
  | c :: cs => json.isDigit c && c ≠ '0' && cs.all json.isDigit

/-- A plain text between two quotes. -/
def isQuotedPlain : GoString → Bool
  | [] => false
  | c :: cs => c = '"' && cs.getLast? = some '"' && isPlainText cs.dropLast

/-- A scalar of JSON as `%v` prints it inside a flat rendering: an unsigned integer,
a quoted plain text, or one of the words `true`, `false`, `null`. -/
def isScalarToken (v : GoString) : Bool :=
  isUintLiteral v || isQuotedPlain v || v = "true".toList || v = "false".toList
    || v = "null".toList

/-! ## Observations on a run -/

/-- The results of the calls of `log` during the run, in order. -/
def Run.logResults (r : Run) : List (Option GoError) :=
  r.trace.filterMap fun e =>
    match e with
    | .log _ res => some res
    | .handler _ => none

/-- The records handed to `log` during the run, in order. -/
def Run.records (r : Run) : List Audit :=
  r.trace.filterMap fun e =>
    match e with
    | .log a _ => some a
    | .handler _ => none

/-- The number of invocations of the wrapped handler during the run. -/
def Run.handlerCalls (r : Run) : Nat :=
  r.trace.countP fun e =>
    match e with
    | .handler _ => true
    | .log _ _ => false

/-! ## Sample calls -/

/-- A channel that accepts every message. -/
def acceptingPublish : GoString → GoString → Bool → Bool → Publishing → Option GoError :=
  fun _ _ _ _ _ => none

/-- A channel that is closed. -/
def closedPublish : GoString → GoString → Bool → Bool → Publishing → Option GoError :=
  fun _ _ _ _ _ => some ⟨none, "channel/connection is not open".toList⟩

/-- The package after `Init` for the service `orders` of domain `1`, project `7`. -/
def samplePackage : Package :=
  Package.default acceptingPublish "dev".toList ⟨1, 7, "orders".toList⟩

/-- The same package with a closed channel. -/
def closedPackage : Package :=
  Package.default closedPublish "dev".toList ⟨1, 7, "orders".toList⟩

/-- The library on the method `/orders.Orders/Get`, with serialisers that succeed. -/
def sampleLibrary : Library :=
  { pathDir := fun _ => ⟨"/orders.Orders".toList, by decide⟩
    pathBase := fun _ => "Get".toList
    marshalMD := fun md => if md = [] then "\x7b\x7d".toList else "\x7b\"x-forwarded-for\":[]\x7d".toList
    marshalAudit := fun a => .ok a.Message.Request.Body }

def sampleInfo : UnaryServerInfo := ⟨"/orders.Orders/Get".toList⟩

/-- A call that took 1500 microseconds. -/
def sampleClock : Clock := ⟨1700000000000, 1500000, 1700000000001⟩

/-- Identity tags without any claim. -/
def noTags : AuthTags := ⟨fun _ => false, fun _ => .nil⟩

/-- Identity tags with the four claims 42, 43, 44 and 45. -/
def fullTags : AuthTags :=
  { Has := fun k =>
      k = "auth.domainId".toList || k = "auth.projectId".toList ||
        k = "auth.accountId".toList || k = "auth.accountType".toList
    Values := fun k =>
      if k = "auth.domainId".toList then .int64 42
      else if k = "auth.projectId".toList then .int64 43
      else if k = "auth.accountId".toList then .int64 44
      else if k = "auth.accountType".toList then .int64 45
      else .nil }

/-- A context with forwarded-for metadata and no claim. -/
def sampleCtx : Context :=
  ⟨some [("x-forwarded-for".toList, ["1.2.3.4, 5.6.7.8".toList])], noTags⟩

/-- A context with empty metadata and the four claims. -/
def claimsCtx : Context := ⟨some [], fullTags⟩

/-- A context without retrievable metadata. -/
def bareCtx : Context := ⟨none, noTags⟩

/-- A handler that succeeds with the response `id:1 n:2`. -/
def okHandler : Context → Iface → Iface × Option GoError :=
  fun _ _ => (.other "id:1 n:2".toList, none)

/-- A handler that fails with the status `NotFound` and the `nil` response. -/
def failingHandler : Context → Iface → Iface × Option GoError :=
  fun _ _ => (.nil, some ⟨some 5, "no such order".toList⟩)

def sampleReq : Iface := .other "id:1".toList

/-- The record of the sample call without claims. -/
def sampleRecord : Audit :=
  (callRecord samplePackage sampleLibrary sampleClock sampleCtx sampleReq sampleInfo okHandler
    [("x-forwarded-for".toList, ["1.2.3.4, 5.6.7.8".toList])]).getD Audit.zero

/-- The record of the sample call with the four claims. -/
def claimsRecord : Audit :=
  (callRecord samplePackage sampleLibrary sampleClock claimsCtx sampleReq sampleInfo okHandler
    []).getD Audit.zero

/-! ## Reference definitions, in the specification's words -/

/-- Replacement of every occurrence of the character `c` by the text `new`, the
substitution the specification describes. -/
def substChar (c : Char) (new : GoString) : GoString → GoString
  | [] => []
  | x :: xs => (if x = c then new else [x]) ++ substChar c new xs

/-- The reference definition of the payload coercer, in the specification's words:
the empty text gives `{}`; any other text is wrapped in braces and then every space
becomes `,"`, every `{` becomes `{"` and every `:` becomes `":`, in this order. -/
def JSONFormatterSpec (s : GoString) : GoString :=
  if s = [] then "\x7b\x7d".toList
  else
    substChar ':' "\":".toList
      (substChar '{' "\x7b\"".toList
        (substChar ' ' ",\"".toList ("\x7b".toList ++ s ++ "\x7d".toList)))

/-- Concatenation of the texts `xs` with `sep` between consecutive ones. -/
def joinWith (sep : GoString) : List GoString → GoString
  | [] => []
  | [x] => x
  | x :: y :: ys => x ++ sep ++ joinWith sep (y :: ys)

/-- The flat rendering `k1:v1 k2:v2 ... kn:vn` of a list of pairs. -/
def renderFlat (kvs : List (GoString × GoString)) : GoString :=
  joinWith " ".toList (kvs.map fun kv => kv.1 ++ ":".toList ++ kv.2)

/-- The object text `{"k1":v1,"k2":v2,...,"kn":vn}` of a list of pairs. -/
def objectText (kvs : List (GoString × GoString)) : GoString :=
  "\x7b".toList ++ joinWith ",".toList (kvs.map fun kv => "\"".toList ++ kv.1 ++ "\":".toList ++ kv.2)
    ++ "\x7d".toList

/-- The client address in the specification's words: empty without a first
`x-forwarded-for` value or with an empty one, else that value up to its first comma. -/
def clientIpSpec (md : MD) : GoString :=
  match md.lookup "x-forwarded-for".toList with
  | none => []
  | some [] => []
  | some (first :: _) => first.takeWhile (· ≠ ',')

/-- One identity claim in the specification's words: the field is the default when the
tags do not have the key, and the value `v` when they have it with an `int64` value. -/
def claimRule (auth : AuthTags) (key : GoString) (dflt field : Int) : Prop :=
  (auth.Has key = false → field = dflt) ∧
    ∀ v : Int, auth.Has key = true → auth.Values key = .int64 v →
      -(2 ^ 63) ≤ v → v < 2 ^ 63 → field = v

/-! ## Lemmas on replacement -/

theorem replaceScan_single (c : Char) (new s : GoString) :
    strings.replaceScan [c] new 0 s = substChar c new s := by
  induction s with
  | nil => rfl
  | cons x xs ih =>
    by_cases h : x = c
    · subst h
      simp [strings.replaceScan, substChar, ih, List.isPrefixOf]
    · have h2 : ¬ c = x := fun e => h e.symm
      simp [strings.replaceScan, substChar, ih, List.isPrefixOf, h, h2]

theorem strings_Replace_single (c : Char) (new s : GoString) (h : [c] ≠ new) :
    strings.Replace s [c] new = substChar c new s := by
  simp [strings.Replace, h, replaceScan_single]

theorem substChar_append (c : Char) (new s t : GoString) :
    substChar c new (s ++ t) = substChar c new s ++ substChar c new t := by
  induction s with
  | nil => rfl
  | cons x xs ih => simp [substChar, ih]

theorem substChar_of_not_mem (c : Char) (new s : GoString) (h : c ∉ s) :
    substChar c new s = s := by
  induction s with
  | nil => rfl
  | cons x xs ih =>
    simp only [List.mem_cons, not_or] at h
    have hx : ¬ x = c := fun e => h.1 e.symm
    simp [substChar, hx, ih h.2]

theorem JSONFormatter_eq_spec (s : GoString) : JSONFormatter s = JSONFormatterSpec s := by
  unfold JSONFormatter JSONFormatterSpec
  by_cases hs : s = []
  · subst hs; simp
  · have hne : ¬ ("\x7b".toList ++ s ++ "\x7d".toList = "\x7b\x7d".toList) := by
      cases s with
      | nil => exact absurd rfl hs
      | cons x xs => simp
    simp only [hs, hne, if_false]
    show strings.Replace (strings.Replace (strings.Replace ("\x7b".toList ++ s ++ "\x7d".toList) [' '] [',', '"'])
      ['{'] ['{', '"']) [':'] ['"', ':'] = _
    rw [strings_Replace_single ' ' _ _ (by decide), strings_Replace_single '{' _ _ (by decide),
      strings_Replace_single ':' _ _ (by decide)]
    rfl

theorem substChar_joinWith (c : Char) (new sep : GoString) (xs : List GoString) :
    substChar c new (joinWith sep xs)
      = joinWith (substChar c new sep) (xs.map (substChar c new)) := by
  induction xs with
  | nil => rfl
  | cons x xs ih =>
    cases xs with
    | nil => rfl
    | cons y ys =>
      simp only [joinWith, List.map_cons, substChar_append]
      rw [ih]
      rfl

theorem joinWith_quote (xs : List GoString) (h : xs ≠ []) :
    '"' :: joinWith [',', '"'] xs = joinWith [','] (xs.map fun x => '"' :: x) := by
  induction xs with
  | nil => exact absurd rfl h
  | cons x xs ih =>
    cases xs with
    | nil => rfl
    | cons y ys =>
      have := ih (by simp)
      simp only [joinWith, List.map_cons] at this ⊢
      rw [← this]
      simp

theorem joinWith_ne_nil (sep x : GoString) (xs : List GoString) (h : x ≠ []) :
    joinWith sep (x :: xs) ≠ [] := by
  cases xs with
  | nil => simpa [joinWith] using h
  | cons y ys => simp [joinWith, h]

theorem renderFlat_ne_nil (kvs : List (GoString × GoString)) (h : kvs ≠ []) :
    renderFlat kvs ≠ [] := by
  cases kvs with
  | nil => exact absurd rfl h
  | cons kv rest =>
    unfold renderFlat
    rw [List.map_cons]
    exact joinWith_ne_nil _ _ _ (by simp)

/-- The three substitutions on a flat rendering whose keys and values are free of
spaces, opening braces and colons. -/
theorem JSONFormatterSpec_renderFlat (kvs : List (GoString × GoString)) (hne : kvs ≠ [])
    (h : ∀ kv ∈ kvs, (' ' ∉ kv.1 ∧ '{' ∉ kv.1 ∧ ':' ∉ kv.1) ∧
      (' ' ∉ kv.2 ∧ '{' ∉ kv.2 ∧ ':' ∉ kv.2)) :
    JSONFormatterSpec (renderFlat kvs) = objectText kvs := by
  unfold JSONFormatterSpec
  rw [if_neg (renderFlat_ne_nil kvs hne)]
  have e1 : (kvs.map fun kv => kv.1 ++ ":".toList ++ kv.2).map (substChar ' ' ",\"".toList)
      = kvs.map fun kv => kv.1 ++ ":".toList ++ kv.2 := by
    rw [List.map_map]
    apply List.map_congr_left
    intro kv hkv
    obtain ⟨⟨a1, -, -⟩, ⟨b1, -, -⟩⟩ := h kv hkv
    simp only [Function.comp, substChar_append]
    rw [substChar_of_not_mem _ _ _ a1, substChar_of_not_mem _ _ _ b1]
    rfl
  have e2 : (kvs.map fun kv => kv.1 ++ ":".toList ++ kv.2).map (substChar '{' "\x7b\"".toList)
      = kvs.map fun kv => kv.1 ++ ":".toList ++ kv.2 := by
    rw [List.map_map]
    apply List.map_congr_left
    intro kv hkv
    obtain ⟨⟨-, a1, -⟩, ⟨-, b1, -⟩⟩ := h kv hkv
    simp only [Function.comp, substChar_append]
    rw [substChar_of_not_mem _ _ _ a1, substChar_of_not_mem _ _ _ b1]
    rfl
  have e3 : (kvs.map fun kv => kv.1 ++ ":".toList ++ kv.2).map (substChar ':' "\":".toList)
      = kvs.map fun kv => kv.1 ++ "\":".toList ++ kv.2 := by
    rw [List.map_map]
    apply List.map_congr_left
    intro kv hkv
    obtain ⟨⟨-, -, a1⟩, ⟨-, -, b1⟩⟩ := h kv hkv
    simp only [Function.comp, substChar_append]
    rw [substChar_of_not_mem _ _ _ a1, substChar_of_not_mem _ _ _ b1]
    rfl
  have hq := joinWith_quote (kvs.map fun kv => kv.1 ++ "\":".toList ++ kv.2) (by simpa using hne)
  unfold renderFlat objectText
  simp only [substChar_append, substChar_joinWith, e1]
  rw [show substChar ' ' ",\"".toList " ".toList = ",\"".toList from rfl,
    show substChar ' ' ",\"".toList "\x7b".toList = "\x7b".toList from rfl,
    show substChar ' ' ",\"".toList "\x7d".toList = "\x7d".toList from rfl]
  simp only [substChar_append, substChar_joinWith, e2]
  rw [show substChar '{' "\x7b\"".toList ",\"".toList = ",\"".toList from rfl,
    show substChar '{' "\x7b\"".toList "\x7b".toList = "\x7b\"".toList from rfl,
    show substChar '{' "\x7b\"".toList "\x7d".toList = "\x7d".toList from rfl]
  simp only [substChar_append, substChar_joinWith, e3]
  rw [show substChar ':' "\":".toList ",\"".toList = ",\"".toList from rfl,
    show substChar ':' "\":".toList "\x7b\"".toList = "\x7b\"".toList from rfl,
    show substChar ':' "\":".toList "\x7d".toList = "\x7d".toList from rfl]
  rw [List.map_map] at hq
  show ['{', '"'] ++ joinWith [',', '"'] _ ++ _ = ['{'] ++ joinWith [','] _ ++ _
  have hq2 : (kvs.map fun kv => "\"".toList ++ kv.1 ++ "\":".toList ++ kv.2)
      = kvs.map ((fun x => '"' :: x) ∘ fun kv => kv.1 ++ "\":".toList ++ kv.2) := by
    apply List.map_congr_left
    intro kv _
    simp [Function.comp]
  rw [hq2, ← hq]
  simp

/-! ## Lemmas on the interceptor -/

section
variable (P : Package) (L : Library) (clock : Clock) (ctx : Context) (req : Iface)
  (info : UnaryServerInfo) (handler : Context → Iface → Iface × Option GoError)

theorem run_without_metadata (hmd : metadata.FromIncomingContext ctx = none) :
    AuditServerUnaryInterceptor P L clock ctx req info handler
      = { outcome := .returned .nil
            (status.Errorf codes.DataLoss "failed to get metadata".toList)
          trace := [.handler req] } := by
  simp only [AuditServerUnaryInterceptor, hmd]

theorem run_with_panic (md : MD) (hmd : metadata.FromIncomingContext ctx = some md)
    (hb : callRecord P L clock ctx req info handler md = none) :
    AuditServerUnaryInterceptor P L clock ctx req info handler
      = { outcome := .panicked, trace := [.handler req] } := by
  unfold callRecord at hb
  simp only [AuditServerUnaryInterceptor, hmd, hb]

theorem run_with_log_error (md : MD) (a : Audit) (err : GoError)
    (hmd : metadata.FromIncomingContext ctx = some md)
    (hb : callRecord P L clock ctx req info handler md = some a)
    (hl : log P L a = some err) :
    AuditServerUnaryInterceptor P L clock ctx req info handler
      = { outcome := .returned .nil (some err)
          trace := [.handler req, .log a (some err)] } := by
  unfold callRecord at hb
  simp only [AuditServerUnaryInterceptor, hmd, hb, hl]

theorem run_with_log_ok (md : MD) (a : Audit)
    (hmd : metadata.FromIncomingContext ctx = some md)
    (hb : callRecord P L clock ctx req info handler md = some a)
    (hl : log P L a = none) :
    AuditServerUnaryInterceptor P L clock ctx req info handler
      = { outcome := .returned (handler ctx req).1 (handler ctx req).2
          trace := [.handler req, .log a none] } := by
  unfold callRecord at hb
  simp only [AuditServerUnaryInterceptor, hmd, hb, hl]

/-- A call of `log` during a run comes after the metadata was found and the record was
built, and its result is what `log` returns on that record. -/
theorem log_event_inv (a : Audit) (res : Option GoError)
    (h : Event.log a res ∈ (AuditServerUnaryInterceptor P L clock ctx req info handler).trace) :
    ∃ md, metadata.FromIncomingContext ctx = some md ∧
      callRecord P L clock ctx req info handler md = some a ∧ log P L a = res := by
  cases hmd : metadata.FromIncomingContext ctx with
  | none =>
    rw [run_without_metadata P L clock ctx req info handler hmd] at h
    simp at h
  | some md =>
    cases hb : callRecord P L clock ctx req info handler md with
    | none =>
      rw [run_with_panic P L clock ctx req info handler md hmd hb] at h
      simp at h
    | some b =>
      cases hl : log P L b with
      | none =>
        rw [run_with_log_ok P L clock ctx req info handler md b hmd hb hl] at h
        simp at h
        obtain ⟨rfl, rfl⟩ := h
        exact ⟨md, rfl, hb, hl⟩
      | some err =>
        rw [run_with_log_error P L clock ctx req info handler md b err hmd hb hl] at h
        simp at h
        obtain ⟨rfl, rfl⟩ := h
        exact ⟨md, rfl, hb, hl⟩

theorem logResults_inv (res : Option GoError)
    (h : res ∈ (AuditServerUnaryInterceptor P L clock ctx req info handler).logResults) :
    ∃ a, Event.log a res ∈ (AuditServerUnaryInterceptor P L clock ctx req info handler).trace := by
  unfold Run.logResults at h
  rw [List.mem_filterMap] at h
  obtain ⟨e, he, hres⟩ := h
  cases e with
  | handler r => simp at hres
  | log a r =>
    simp at hres
    subst hres
    exact ⟨a, he⟩

theorem records_inv (a : Audit)
    (h : a ∈ (AuditServerUnaryInterceptor P L clock ctx req info handler).records) :
    ∃ res, Event.log a res ∈ (AuditServerUnaryInterceptor P L clock ctx req info handler).trace := by
  unfold Run.records at h
  rw [List.mem_filterMap] at h
  obtain ⟨e, he, hres⟩ := h
  cases e with
  | handler r => simp at hres
  | log b r =>
    simp at hres
    subst hres
    exact ⟨r, he⟩

end

theorem log_error_cases (P : Package) (L : Library) (a : Audit) (e : GoError)
    (h : log P L a = some e) :
    L.marshalAudit a = .error e ∨
      ∃ m, L.marshalAudit a = .ok m ∧
        P.publish P.MQ_EXCHANGE_AUDIT_LOG [] false false
          { ContentType := "application/json".toList, Body := m } = some e := by
  unfold log at h
  cases hm : L.marshalAudit a with
  | error err =>
    rw [hm] at h
    simp at h
    subst h
    exact Or.inl rfl
  | ok m =>
    rw [hm] at h
    simp only at h
    right
    refine ⟨m, rfl, ?_⟩
    cases hp : P.publish P.MQ_EXCHANGE_AUDIT_LOG [] false false
        { ContentType := "application/json".toList, Body := m } with
    | none => rw [hp] at h; simp at h
    | some err => rw [hp] at h; simpa using h

theorem wrapInt64_of_range (v : Int) (h1 : -(2 ^ 63) ≤ v) (h2 : v < 2 ^ 63) :
    wrapInt64 v = v := by
  unfold wrapInt64
  rw [Int.emod_eq_of_lt (by omega) (by omega)]
  omega

theorem claimOr_rule (auth : AuthTags) (key : GoString) (dflt field : Int)
    (h : claimOr auth key dflt = some field) : claimRule auth key dflt field := by
  unfold claimOr at h
  constructor
  · intro hh
    simp [hh] at h
    exact h.symm
  · intro v hh hv h1 h2
    simp [hh, hv, Iface.assertInt64] at h
    rw [← h]
    exact wrapInt64_of_range v h1 h2

theorem buildAudit_fields (P : Package) (L : Library) (ctx : Context) (md : MD)
    (req resp : Iface) (service method : GoString) (startMs endMs : Int) (code : Nat)
    (durVal : Iface) (a : Audit)
    (h : buildAudit P L ctx md req resp service method startMs endMs code durVal = some a) :
    claimOr ctx.auth "auth.domainId".toList 100 = some a.SrcDomainId ∧
      claimOr ctx.auth "auth.projectId".toList 5 = some a.SrcProjectId ∧
      claimOr ctx.auth "auth.accountId".toList 2 = some a.UserId ∧
      claimOr ctx.auth "auth.accountType".toList 1 = some a.UserType ∧
      a.Message.Request.Ip = clientIpOf md ∧
      a.Message.Response.Elapsed = elapsedOf durVal ∧
      a.Message.Request.Body = JSONFormatter (fmt.Sprintv req) ∧
      a.Message.Response.Body = JSONFormatter (fmt.Sprintv resp) := by
  unfold buildAudit at h
  dsimp only at h
  cases h1 : claimOr ctx.auth "auth.domainId".toList 100 with
  | none => rw [h1] at h; exact absurd h (by simp)
  | some c1 =>
    rw [h1] at h
    cases h2 : claimOr ctx.auth "auth.projectId".toList 5 with
    | none => rw [h2] at h; exact absurd h (by simp)
    | some c2 =>
      rw [h2] at h
      cases h3 : claimOr ctx.auth "auth.accountId".toList 2 with
      | none => rw [h3] at h; exact absurd h (by simp)
      | some c3 =>
        rw [h3] at h
        cases h4 : claimOr ctx.auth "auth.accountType".toList 1 with
        | none => rw [h4] at h; exact absurd h (by simp)
        | some c4 =>
          rw [h4] at h
          simp only [Option.bind, Option.some.injEq] at h
          subst h
          exact ⟨rfl, rfl, rfl, rfl, rfl, rfl, rfl, rfl⟩

theorem splitScan_comma_head (s cur : GoString) :
    ∃ rest, strings.splitScan [','] 0 cur s
      = (cur.reverse ++ s.takeWhile (· ≠ ',')) :: rest := by
  induction s generalizing cur with
  | nil => exact ⟨[], by simp [strings.splitScan]⟩
  | cons c cs ih =>
    by_cases hc : c = ','
    · subst hc
      exact ⟨strings.splitScan [','] 0 [] cs, by simp [strings.splitScan, List.isPrefixOf]⟩
    · have hc2 : ¬ ',' = c := fun e => hc e.symm
      obtain ⟨rest, hr⟩ := ih (c :: cur)
      refine ⟨rest, ?_⟩
      simp [strings.splitScan, List.isPrefixOf, hc, hc2, hr]

theorem clientIpOf_eq_spec (md : MD) : clientIpOf md = clientIpSpec md := by
  unfold clientIpOf clientIpSpec MD.Get
  have hk : strings.ToLower "x-forwarded-for".toList = "x-forwarded-for".toList := by decide
  rw [hk]
  cases hl : List.lookup "x-forwarded-for".toList md with
  | none => simp
  | some vs =>
    cases vs with
    | nil => simp
    | cons first tl =>
      simp only [Option.getD_some]
      by_cases hf : first = []
      · subst hf; simp
      · obtain ⟨rest, hr⟩ := splitScan_comma_head first []
        have hs : strings.Split first ",".toList = first.takeWhile (· ≠ ',') :: rest := by
          unfold strings.Split
          rw [if_neg (by decide)]
          simpa using hr
        rw [if_pos hf, hs]

theorem record_inv (P : Package) (L : Library) (clock : Clock) (ctx : Context)
    (req : Iface) (info : UnaryServerInfo)
    (handler : Context → Iface → Iface × Option GoError) (a : Audit)
    (h : a ∈ (AuditServerUnaryInterceptor P L clock ctx req info handler).records) :
    ∃ md, metadata.FromIncomingContext ctx = some md ∧
      callRecord P L clock ctx req info handler md = some a := by
  obtain ⟨res, hres⟩ := records_inv P L clock ctx req info handler a h
  obtain ⟨md, hmd, hb, _⟩ := log_event_inv P L clock ctx req info handler a res hres
  exact ⟨md, hmd, hb⟩

/-! ## Lemmas on JSON texts -/

section
open json

theorem skipSpace_cons (c : Char) (cs : GoString) (h : isSpace c = false) :
    skipSpace (c :: cs) = c :: cs := by
  simp [skipSpace, h]

theorem isPlainChar_facts (c : Char) (h : isPlainChar c = true) :
    c ≠ ' ' ∧ c ≠ '{' ∧ c ≠ ':' ∧ c ≠ '"' ∧ c ≠ '\\' ∧ 0x20 ≤ c.toNat := by
  simpa [isPlainChar, and_assoc] using h

theorem scanString_plain (k r : GoString) (h : isPlainText k = true) :
    scanString .text (k ++ '"' :: r) = some r := by
  induction k with
  | nil => simp [scanString]
  | cons c cs ih =>
    simp only [isPlainText, List.all_cons, Bool.and_eq_true] at h
    obtain ⟨-, -, -, h4, h5, h6⟩ := isPlainChar_facts c h.1
    have h6' : ¬ c.toNat < 32 := by omega
    simp [scanString, h4, h5, h6']
    exact ih h.2

theorem isDigit_facts (d : Char) (h : isDigit d = true) :
    isSpace d = false ∧ d ≠ '{' ∧ d ≠ '[' ∧ d ≠ '"' ∧ d ≠ '-' ∧ d ≠ ' ' ∧ d ≠ ':' := by
  refine ⟨?_, ?_, ?_, ?_, ?_, ?_, ?_⟩
  · cases hs : isSpace d with
    | false => rfl
    | true =>
      simp only [isSpace, Bool.or_eq_true, decide_eq_true_eq] at hs
      rcases hs with ((rfl | rfl) | rfl) | rfl <;> exact absurd h (by decide)
  all_goals (rintro rfl; exact absurd h (by decide))

theorem scanNumber_int_digits (ds : GoString) (c : Char) (r : GoString)
    (hds : ds.all isDigit = true) (hc : c = ',' ∨ c = '}') :
    scanNumber .int (ds ++ c :: r) = some (c :: r) := by
  induction ds with
  | nil =>
    rcases hc with rfl | rfl <;> rfl
  | cons d ds ih =>
    simp only [List.all_cons, Bool.and_eq_true] at hds
    simp only [List.cons_append, scanNumber, NumState.step, hds.1, if_true]
    exact ih hds.2


theorem isQuotedPlain_inv (v : GoString) (h : isQuotedPlain v = true) :
    ∃ inner, v = '"' :: (inner ++ ['"']) ∧ isPlainText inner = true := by
  cases v with
  | nil => simp [isQuotedPlain] at h
  | cons c cs =>
    simp only [isQuotedPlain, Bool.and_eq_true, decide_eq_true_eq] at h
    obtain ⟨⟨rfl, hlast⟩, hp⟩ := h
    refine ⟨cs.dropLast, ?_, hp⟩
    rw [List.dropLast_append_getLast? _ (by simpa using hlast)]

theorem isUintLiteral_inv (v : GoString) (h : isUintLiteral v = true) :
    v = ['0'] ∨ ∃ d ds, v = d :: ds ∧ isDigit d = true ∧ d ≠ '0' ∧ ds.all isDigit = true := by
  cases v with
  | nil => simp [isUintLiteral] at h
  | cons c cs =>
    cases cs with
    | nil =>
      simp only [isUintLiteral] at h
      by_cases h0 : c = '0'
      · left; rw [h0]
      · right; exact ⟨c, [], rfl, h, h0, rfl⟩
    | cons c2 cs2 =>
      simp only [isUintLiteral, Bool.and_eq_true, decide_eq_true_eq] at h
      right
      exact ⟨c, c2 :: cs2, rfl, h.1.1, by simpa using h.1.2, h.2⟩

theorem scanValue_uint (n : Nat) (d : Char) (ds : GoString) (c : Char) (r : GoString)
    (hd : isDigit d = true) (h0 : d ≠ '0') (hds : ds.all isDigit = true)
    (hc : c = ',' ∨ c = '}') :
    scanValue (n + 1) (d :: ds ++ c :: r) = some (c :: r) := by
  obtain ⟨hs, h1, h2, h3, h4, -, -⟩ := isDigit_facts d hd
  simp only [scanValue, List.cons_append, skipSpace_cons d _ hs, h1, h2, h3, h4, h0, hd,
    if_false, if_true]
  exact scanNumber_int_digits ds c r hds hc

theorem scanValue_token (n : Nat) (v : GoString) (c : Char) (r : GoString)
    (hv : isScalarToken v = true) (hc : c = ',' ∨ c = '}') :
    scanValue (n + 1) (v ++ c :: r) = some (c :: r) := by
  simp only [isScalarToken, Bool.or_eq_true, decide_eq_true_eq] at hv
  rcases hv with (((hu | hq) | rfl) | rfl) | rfl
  · rcases isUintLiteral_inv v hu with rfl | ⟨d, ds, rfl, hd, h0, hds⟩
    · rcases hc with rfl | rfl <;> rfl
    · exact scanValue_uint n d ds c r hd h0 hds hc
  · obtain ⟨inner, rfl, hp⟩ := isQuotedPlain_inv v hq
    have := scanString_plain inner (c :: r) hp
    simp only [scanValue, List.cons_append, List.append_assoc, List.singleton_append]
    rw [skipSpace_cons _ _ (by decide)]
    simpa using this
  · rcases hc with rfl | rfl <;> rfl
  · rcases hc with rfl | rfl <;> rfl
  · rcases hc with rfl | rfl <;> rfl


theorem scanMembers_entry (n : Nat) (k v : GoString) (c : Char) (r : GoString)
    (hk : isPlainText k = true) (hv : isScalarToken v = true) (hc : c = ',' ∨ c = '}') :
    scanMembers (n + 2) ('"' :: (k ++ '"' :: ':' :: (v ++ c :: r)))
      = if c = ',' then scanMembers (n + 1) r else some r := by
  rw [scanMembers, skipSpace_cons _ _ (by decide)]
  simp only [if_true]
  rw [scanString_plain k _ hk]
  simp only []
  rw [skipSpace_cons _ _ (by decide)]
  simp only [if_true]
  rw [scanValue_token n v c r hv hc]
  simp only []
  rcases hc with rfl | rfl
  · rw [skipSpace_cons _ _ (by decide)]
    simp
  · rw [skipSpace_cons _ _ (by decide)]
    simp

theorem scanMembers_flat (kvs : List (GoString × GoString)) (hne : kvs ≠ [])
    (h : ∀ kv ∈ kvs, isPlainText kv.1 = true ∧ isScalarToken kv.2 = true)
    (n : Nat) (hn : kvs.length < n) (r : GoString) :
    scanMembers n (joinWith [','] (kvs.map fun kv => '"' :: (kv.1 ++ '"' :: ':' :: kv.2))
      ++ '}' :: r) = some r := by
  induction kvs generalizing n with
  | nil => exact absurd rfl hne
  | cons kv rest ih =>
    obtain ⟨hk, hv⟩ := h kv (by simp)
    cases rest with
    | nil =>
      obtain ⟨m, rfl⟩ : ∃ m, n = m + 2 := ⟨n - 2, by simp at hn; omega⟩
      have := scanMembers_entry m kv.1 kv.2 '}' r hk hv (Or.inr rfl)
      simpa [joinWith] using this
    | cons kv2 rest2 =>
      obtain ⟨m, rfl⟩ : ∃ m, n = m + 2 := ⟨n - 2, by simp at hn; omega⟩
      have hrec := ih (by simp) (fun x hx => h x (by simp [hx])) (m + 1)
        (by simp at hn ⊢; omega)
      have := scanMembers_entry m kv.1 kv.2 ','
        (joinWith [','] ((kv2 :: rest2).map fun kv => '"' :: (kv.1 ++ '"' :: ':' :: kv.2))
          ++ '}' :: r) hk hv (Or.inl rfl)
      rw [if_pos rfl, hrec] at this
      rw [← this]
      simp [joinWith]

theorem objectText_eq (kvs : List (GoString × GoString)) :
    objectText kvs
      = '{' :: (joinWith [','] (kvs.map fun kv => '"' :: (kv.1 ++ '"' :: ':' :: kv.2))
          ++ ['}']) := by
  unfold objectText
  have : (kvs.map fun kv => "\"".toList ++ kv.1 ++ "\":".toList ++ kv.2)
      = kvs.map fun kv => '"' :: (kv.1 ++ '"' :: ':' :: kv.2) := by
    apply List.map_congr_left
    intro kv _
    simp
  rw [this]
  rfl

theorem le_length_joinWith (sep : GoString) (xs : List GoString)
    (h : ∀ x ∈ xs, 1 ≤ x.length) : xs.length ≤ (joinWith sep xs).length := by
  induction xs with
  | nil => simp
  | cons x rest ih =>
    cases rest with
    | nil =>
      have := h x (by simp)
      simpa [joinWith] using this
    | cons y ys =>
      have h1 := h x (by simp)
      have h2 := ih (fun z hz => h z (by simp [hz]))
      simp only [joinWith, List.length_append, List.length_cons] at h2 ⊢
      omega

theorem isObject_objectText (kvs : List (GoString × GoString))
    (h : ∀ kv ∈ kvs, isPlainText kv.1 = true ∧ isScalarToken kv.2 = true) :
    isObject (objectText kvs) = true := by
  rw [objectText_eq]
  cases kvs with
  | nil => decide
  | cons kv rest =>
    have hlen : (kv :: rest).length
        ≤ (joinWith [','] ((kv :: rest).map fun kv => '"' :: (kv.1 ++ '"' :: ':' :: kv.2))).length := by
      have := le_length_joinWith [',']
        ((kv :: rest).map fun kv => '"' :: (kv.1 ++ '"' :: ':' :: kv.2))
        (by intro x hx; simp at hx; rcases hx with rfl | ⟨a, b, _, rfl⟩ <;> simp)
      simpa using this
    have hm := scanMembers_flat (kv :: rest) (by simp) h
      (('{' :: (joinWith [','] ((kv :: rest).map fun kv => '"' :: (kv.1 ++ '"' :: ':' :: kv.2))
        ++ ['}'])).length) (by simp only [List.length_cons, List.length_append] at hlen ⊢; omega) []
    obtain ⟨tl, htl⟩ : ∃ tl, joinWith [',']
        ((kv :: rest).map fun kv => '"' :: (kv.1 ++ '"' :: ':' :: kv.2)) = '"' :: tl := by
      cases rest with
      | nil => exact ⟨_, rfl⟩
      | cons y ys => exact ⟨_, rfl⟩
    unfold isObject
    rw [skipSpace_cons _ _ (by decide)]
    rw [scanValue, skipSpace_cons _ _ (by decide)]
    rw [htl] at hm ⊢
    simp only [List.cons_append, if_true]
    rw [skipSpace_cons _ _ (by decide)]
    simp only [show ¬ ('"' = '}') by decide, if_false]
    simp only [List.cons_append] at hm
    rw [hm]
    simp [skipSpace]


theorem isPlainText_no_special (k : GoString) (h : isPlainText k = true) :
    ' ' ∉ k ∧ '{' ∉ k ∧ ':' ∉ k := by
  simp only [isPlainText, List.all_eq_true] at h
  refine ⟨fun hm => ?_, fun hm => ?_, fun hm => ?_⟩ <;> exact absurd (h _ hm) (by decide)

theorem all_isDigit_no_special (ds : GoString) (h : ds.all isDigit = true) :
    ' ' ∉ ds ∧ '{' ∉ ds ∧ ':' ∉ ds := by
  simp only [List.all_eq_true] at h
  refine ⟨fun hm => ?_, fun hm => ?_, fun hm => ?_⟩ <;> exact absurd (h _ hm) (by decide)

theorem isScalarToken_no_special (v : GoString) (hv : isScalarToken v = true) :
    ' ' ∉ v ∧ '{' ∉ v ∧ ':' ∉ v := by
  simp only [isScalarToken, Bool.or_eq_true, decide_eq_true_eq] at hv
  rcases hv with (((hu | hq) | rfl) | rfl) | rfl
  · rcases isUintLiteral_inv v hu with rfl | ⟨d, ds, rfl, hd, -, hds⟩
    · decide
    · exact all_isDigit_no_special (d :: ds) (by simp [hd, hds])
  · obtain ⟨inner, rfl, hp⟩ := isQuotedPlain_inv v hq
    obtain ⟨h1, h2, h3⟩ := isPlainText_no_special inner hp
    simp [h1, h2, h3]
  · decide
  · decide
  · decide

theorem JSONFormatter_flat_isObject (kvs : List (GoString × GoString))
    (h : ∀ kv ∈ kvs, isPlainText kv.1 = true ∧ isScalarToken kv.2 = true) :
    isObject (JSONFormatter (renderFlat kvs)) = true := by
  cases kvs with
  | nil => decide
  | cons kv rest =>
    rw [JSONFormatter_eq_spec, JSONFormatterSpec_renderFlat (kv :: rest) (by simp)
      (fun x hx => ⟨isPlainText_no_special x.1 (h x hx).1,
        isScalarToken_no_special x.2 (h x hx).2⟩)]
    exact isObject_objectText (kv :: rest) h

end

/-! ## The claims -/

/-- C4: `JSONFormatter` equals its reference definition on every input: the empty text
gives `{}`, any other text is wrapped in braces and has every space, then every `{`,
then every `:` replaced; on `a: b c: d` the result is `{"a":,"b,"c":,"d}`. -/
theorem C4_JSONFormatter_refines_spec :
    (∀ s : GoString, JSONFormatter s = JSONFormatterSpec s) ∧
    JSONFormatter [] = "\x7b\x7d".toList ∧
    JSONFormatter "a: b c: d".toList = "\x7b\"a\":,\"b,\"c\":,\"d\x7d".toList :=
  ⟨JSONFormatter_eq_spec, rfl, by decide⟩

/-- C10: on the rendering `k1:v1 k2:v2 ... kn:vn` of a non-empty list of pairs whose
keys and values contain no space, no `{` and no `:`, `JSONFormatter` returns
`{"k1":v1,"k2":v2,...,"kn":vn}`. -/
theorem C10_JSONFormatter_flat (kvs : List (GoString × GoString)) (hne : kvs ≠ [])
    (h : ∀ kv ∈ kvs, (' ' ∉ kv.1 ∧ '{' ∉ kv.1 ∧ ':' ∉ kv.1) ∧
      (' ' ∉ kv.2 ∧ '{' ∉ kv.2 ∧ ':' ∉ kv.2)) :
    JSONFormatter (renderFlat kvs) = objectText kvs := by
  rw [JSONFormatter_eq_spec]
  exact JSONFormatterSpec_renderFlat kvs hne h

theorem C10_JSONFormatter_flat_witness :
    JSONFormatter "id:1 n:2".toList = "\x7b\"id\":1,\"n\":2\x7d".toList :=
  C10_JSONFormatter_flat [("id".toList, "1".toList), ("n".toList, "2".toList)]
    (by decide) (by decide)

/-- C1: on a call whose inbound metadata is retrievable and whose publish step returned
no error, the interceptor returns exactly the pair the handler returned. -/
theorem C1_returns_handler_pair (P : Package) (L : Library) (clock : Clock) (ctx : Context)
    (req : Iface) (info : UnaryServerInfo)
    (handler : Context → Iface → Iface × Option GoError) (md : MD)
    (_hmd : metadata.FromIncomingContext ctx = some md)
    (hlog : none ∈ (AuditServerUnaryInterceptor P L clock ctx req info handler).logResults) :
    (AuditServerUnaryInterceptor P L clock ctx req info handler).outcome
      = .returned (handler ctx req).1 (handler ctx req).2 := by
  obtain ⟨a, ha⟩ := logResults_inv P L clock ctx req info handler none hlog
  obtain ⟨md2, hmd2, hb, hl⟩ := log_event_inv P L clock ctx req info handler a none ha
  rw [run_with_log_ok P L clock ctx req info handler md2 a hmd2 hb hl]

theorem C1_returns_handler_pair_witness :
    metadata.FromIncomingContext sampleCtx
        = some [("x-forwarded-for".toList, ["1.2.3.4, 5.6.7.8".toList])] ∧
      none ∈ (AuditServerUnaryInterceptor samplePackage sampleLibrary sampleClock sampleCtx
        sampleReq sampleInfo okHandler).logResults ∧
      (AuditServerUnaryInterceptor samplePackage sampleLibrary sampleClock sampleCtx
        sampleReq sampleInfo okHandler).outcome = .returned (.other "id:1 n:2".toList) none :=
  ⟨rfl, by decide,
    C1_returns_handler_pair samplePackage sampleLibrary sampleClock sampleCtx sampleReq
      sampleInfo okHandler _ rfl (by decide)⟩

/-- C2: on a call whose inbound metadata cannot be retrieved, the interceptor returns
the nil response with an error of status `DataLoss`, whatever the handler returned. -/
theorem C2_no_metadata_data_loss (P : Package) (L : Library) (clock : Clock) (ctx : Context)
    (req : Iface) (info : UnaryServerInfo)
    (handler : Context → Iface → Iface × Option GoError)
    (hmd : metadata.FromIncomingContext ctx = none) :
    (AuditServerUnaryInterceptor P L clock ctx req info handler).outcome
        = .returned .nil (some ⟨some codes.DataLoss, "failed to get metadata".toList⟩) ∧
      status.Code (some ⟨some codes.DataLoss, "failed to get metadata".toList⟩)
        = codes.DataLoss := by
  rw [run_without_metadata P L clock ctx req info handler hmd]
  exact ⟨rfl, rfl⟩

theorem C2_no_metadata_data_loss_witness :
    metadata.FromIncomingContext bareCtx = none ∧
      (AuditServerUnaryInterceptor samplePackage sampleLibrary sampleClock bareCtx
        sampleReq sampleInfo okHandler).outcome
        = .returned .nil (some ⟨some 15, "failed to get metadata".toList⟩) :=
  ⟨rfl, (C2_no_metadata_data_loss samplePackage sampleLibrary sampleClock bareCtx sampleReq
    sampleInfo okHandler rfl).1⟩

/-- C3: on a call whose inbound metadata is retrievable and whose publish step `log`
(serialisation, then `Publish`) returned the error `e`, the interceptor returns the nil
response with `e`, and `log` was invoked exactly once. -/
theorem C3_publish_error_returned (P : Package) (L : Library) (clock : Clock) (ctx : Context)
    (req : Iface) (info : UnaryServerInfo)
    (handler : Context → Iface → Iface × Option GoError) (md : MD) (e : GoError)
    (_hmd : metadata.FromIncomingContext ctx = some md)
    (hlog : some e ∈ (AuditServerUnaryInterceptor P L clock ctx req info handler).logResults) :
    (AuditServerUnaryInterceptor P L clock ctx req info handler).outcome
        = .returned .nil (some e) ∧
      (AuditServerUnaryInterceptor P L clock ctx req info handler).logResults = [some e] ∧
      ∃ a, (AuditServerUnaryInterceptor P L clock ctx req info handler).records = [a] ∧
        (L.marshalAudit a = .error e ∨
          ∃ m, L.marshalAudit a = .ok m ∧
            P.publish P.MQ_EXCHANGE_AUDIT_LOG [] false false
              { ContentType := "application/json".toList, Body := m } = some e) := by
  obtain ⟨a, ha⟩ := logResults_inv P L clock ctx req info handler (some e) hlog
  obtain ⟨md2, hmd2, hb, hl⟩ := log_event_inv P L clock ctx req info handler a (some e) ha
  rw [run_with_log_error P L clock ctx req info handler md2 a e hmd2 hb hl]
  exact ⟨rfl, rfl, a, rfl, log_error_cases P L a e hl⟩

theorem C3_publish_error_returned_witness :
    (AuditServerUnaryInterceptor closedPackage sampleLibrary sampleClock sampleCtx
        sampleReq sampleInfo okHandler).outcome
      = .returned .nil (some ⟨none, "channel/connection is not open".toList⟩) :=
  (C3_publish_error_returned closedPackage sampleLibrary sampleClock sampleCtx sampleReq
    sampleInfo okHandler _ ⟨none, "channel/connection is not open".toList⟩ rfl
    (by decide)).1

/-- C9, as the code has it: on a call whose inbound metadata cannot be retrieved, the
handler has been invoked exactly once before the metadata is looked up; `log` is not
invoked and the data-loss error replaces the handler's result. -/
theorem C9_handler_runs_before_metadata_check (P : Package) (L : Library) (clock : Clock)
    (ctx : Context) (req : Iface) (info : UnaryServerInfo)
    (handler : Context → Iface → Iface × Option GoError)
    (hmd : metadata.FromIncomingContext ctx = none) :
    (AuditServerUnaryInterceptor P L clock ctx req info handler).handlerCalls = 1 ∧
      (AuditServerUnaryInterceptor P L clock ctx req info handler).trace = [.handler req] ∧
      (AuditServerUnaryInterceptor P L clock ctx req info handler).logResults = [] := by
  rw [run_without_metadata P L clock ctx req info handler hmd]
  exact ⟨rfl, rfl, rfl⟩

theorem C9_handler_runs_before_metadata_check_witness :
    (AuditServerUnaryInterceptor samplePackage sampleLibrary sampleClock bareCtx
        sampleReq sampleInfo failingHandler).handlerCalls = 1 :=
  (C9_handler_runs_before_metadata_check samplePackage sampleLibrary sampleClock bareCtx
    sampleReq sampleInfo failingHandler rfl).1

/-- C9 as stated fails: on a call without retrievable metadata the handler is invoked
once, not zero times. -/
theorem C9_counterexample :
    metadata.FromIncomingContext bareCtx = none ∧
      (AuditServerUnaryInterceptor samplePackage sampleLibrary sampleClock bareCtx
        sampleReq sampleInfo okHandler).handlerCalls ≠ 0 := by
  decide

/-- C7: in the record of a call, each of `srcDomainId`, `srcProjectId`, `userId` and
`userType` is its default `100`, `5`, `2`, `1` when the tags do not have its claim, and
the `int64` value of its claim when they have it; no field looks at another claim. -/
theorem C7_identity_fields (P : Package) (L : Library) (clock : Clock) (ctx : Context)
    (req : Iface) (info : UnaryServerInfo)
    (handler : Context → Iface → Iface × Option GoError) (a : Audit)
    (h : a ∈ (AuditServerUnaryInterceptor P L clock ctx req info handler).records) :
    claimRule ctx.auth "auth.domainId".toList 100 a.SrcDomainId ∧
      claimRule ctx.auth "auth.projectId".toList 5 a.SrcProjectId ∧
      claimRule ctx.auth "auth.accountId".toList 2 a.UserId ∧
      claimRule ctx.auth "auth.accountType".toList 1 a.UserType := by
  obtain ⟨md, _, hb⟩ := record_inv P L clock ctx req info handler a h
  obtain ⟨h1, h2, h3, h4, _⟩ := buildAudit_fields _ _ _ _ _ _ _ _ _ _ _ _ a hb
  exact ⟨claimOr_rule _ _ _ _ h1, claimOr_rule _ _ _ _ h2, claimOr_rule _ _ _ _ h3,
    claimOr_rule _ _ _ _ h4⟩

theorem C7_identity_fields_witness :
    (sampleRecord.SrcDomainId = 100 ∧ sampleRecord.SrcProjectId = 5 ∧
      sampleRecord.UserId = 2 ∧ sampleRecord.UserType = 1) ∧
    (claimsRecord.SrcDomainId = 42 ∧ claimsRecord.SrcProjectId = 43 ∧
      claimsRecord.UserId = 44 ∧ claimsRecord.UserType = 45) := by
  have h1 := C7_identity_fields samplePackage sampleLibrary sampleClock sampleCtx sampleReq
    sampleInfo okHandler sampleRecord (by decide)
  have h2 := C7_identity_fields samplePackage sampleLibrary sampleClock claimsCtx sampleReq
    sampleInfo okHandler claimsRecord (by decide)
  exact ⟨⟨h1.1.1 rfl, h1.2.1.1 rfl, h1.2.2.1.1 rfl, h1.2.2.2.1 rfl⟩,
    ⟨h2.1.2 42 rfl rfl (by decide) (by decide), h2.2.1.2 43 rfl rfl (by decide) (by decide),
      h2.2.2.1.2 44 rfl rfl (by decide) (by decide),
      h2.2.2.2.2 45 rfl rfl (by decide) (by decide)⟩⟩

/-- C8: the client address of the record is empty when the metadata has no
`x-forwarded-for` value or an empty first one, and else the first value up to its first
comma, untrimmed. -/
theorem C8_client_ip (P : Package) (L : Library) (clock : Clock) (ctx : Context)
    (req : Iface) (info : UnaryServerInfo)
    (handler : Context → Iface → Iface × Option GoError) (md : MD) (a : Audit)
    (hmd : metadata.FromIncomingContext ctx = some md)
    (h : a ∈ (AuditServerUnaryInterceptor P L clock ctx req info handler).records) :
    a.Message.Request.Ip = clientIpSpec md ∧ clientIpOf md = clientIpSpec md := by
  obtain ⟨md2, hmd2, hb⟩ := record_inv P L clock ctx req info handler a h
  rw [hmd] at hmd2
  cases hmd2
  obtain ⟨_, _, _, _, hip, _⟩ := buildAudit_fields _ _ _ _ _ _ _ _ _ _ _ _ a hb
  rw [hip]
  exact ⟨clientIpOf_eq_spec md, clientIpOf_eq_spec md⟩

theorem C8_client_ip_witness :
    sampleRecord.Message.Request.Ip = "1.2.3.4".toList ∧
      claimsRecord.Message.Request.Ip = [] :=
  ⟨(C8_client_ip samplePackage sampleLibrary sampleClock sampleCtx sampleReq sampleInfo
      okHandler _ sampleRecord rfl (by decide)).1,
    (C8_client_ip samplePackage sampleLibrary sampleClock claimsCtx sampleReq sampleInfo
      okHandler _ claimsRecord rfl (by decide)).1⟩

/-- C6 at 1500 microseconds: `durationToMilliseconds` gives the `float32` 1.5, `%v` prints
it as `1.5`, `strconv.Atoi` rejects that text and the record gets `elapsed = 0`, where
the truncated number of milliseconds is `1`; a whole number of milliseconds, such as
2000 microseconds, does come through. -/
theorem C6_elapsed_at_1500_microseconds :
    fmt.Sprintv (DurationToTimeMillisField 1500000).2 = "1.5".toList ∧
      strconv.Atoi "1.5".toList = (0, false) ∧
      elapsedOf (samplePackage.DefaultDurationToField 1500000).2 = 0 ∧
      sampleClock.since = 1500000 ∧
      (AuditServerUnaryInterceptor samplePackage sampleLibrary sampleClock sampleCtx
        sampleReq sampleInfo okHandler).records.map (fun a => a.Message.Response.Elapsed)
        = [0] ∧
      (1500000 : Int) / 1000000 = 1 ∧
      elapsedOf (samplePackage.DefaultDurationToField 2000000).2 = 2 := by
  decide

section
open json

/-- C5, as the code has it: the body made from a rendering that is empty or flat,
`k1:v1 k2:v2 ... kn:vn` with plain keys and scalar values, parses as a JSON object; this
holds for `JSONFormatter` and for the request and response bodies of every record. -/
theorem C5_flat_bodies_parse (kvs : List (GoString × GoString))
    (h : ∀ kv ∈ kvs, isPlainText kv.1 = true ∧ isScalarToken kv.2 = true) :
    isObject (JSONFormatter (renderFlat kvs)) = true ∧
      ∀ (P : Package) (L : Library) (clock : Clock) (ctx : Context) (req : Iface)
        (info : UnaryServerInfo) (handler : Context → Iface → Iface × Option GoError)
        (a : Audit),
        a ∈ (AuditServerUnaryInterceptor P L clock ctx req info handler).records →
          (fmt.Sprintv req = renderFlat kvs → isObject a.Message.Request.Body = true) ∧
          (fmt.Sprintv (handler ctx req).1 = renderFlat kvs →
            isObject a.Message.Response.Body = true) := by
  refine ⟨JSONFormatter_flat_isObject kvs h, ?_⟩
  intro P L clock ctx req info handler a ha
  obtain ⟨md, _, hb⟩ := record_inv P L clock ctx req info handler a ha
  obtain ⟨_, _, _, _, _, _, hq, hr⟩ := buildAudit_fields _ _ _ _ _ _ _ _ _ _ _ _ a hb
  constructor
  · intro e
    rw [hq, e]
    exact JSONFormatter_flat_isObject kvs h
  · intro e
    rw [hr, e]
    exact JSONFormatter_flat_isObject kvs h

theorem C5_flat_bodies_parse_witness :
    isObject (JSONFormatter "id:1 name:\"ann\" ok:true".toList) = true ∧
      isObject sampleRecord.Message.Request.Body = true ∧
      isObject sampleRecord.Message.Response.Body = true :=
  ⟨(C5_flat_bodies_parse
      [("id".toList, "1".toList), ("name".toList, "\"ann\"".toList),
        ("ok".toList, "true".toList)] (by decide)).1,
    ((C5_flat_bodies_parse [("id".toList, "1".toList)] (by decide)).2 samplePackage
      sampleLibrary sampleClock sampleCtx sampleReq sampleInfo okHandler sampleRecord
      (by decide)).1 rfl,
    ((C5_flat_bodies_parse [("id".toList, "1".toList), ("n".toList, "2".toList)]
      (by decide)).2 samplePackage sampleLibrary sampleClock sampleCtx sampleReq sampleInfo
      okHandler sampleRecord (by decide)).2 rfl⟩

/-- C5 as stated fails: a handler that fails returns the nil response, which `%v` prints
as `<nil>`; the response body of the record is then `{"<nil>}`, which is not a JSON
object, whatever depth the parser is allowed. -/
theorem C5_counterexample :
    fmt.Sprintv .nil = "<nil>".toList ∧
      JSONFormatter "<nil>".toList = "\x7b\"<nil>\x7d".toList ∧
      isObject (JSONFormatter "<nil>".toList) = false ∧
      (∀ n, scanValue n "\x7b\"<nil>\x7d".toList = none) ∧
      (AuditServerUnaryInterceptor samplePackage sampleLibrary sampleClock sampleCtx
        sampleReq sampleInfo failingHandler).records.map
          (fun a => (a.Message.Response.Body, isObject a.Message.Response.Body))
        = [("\x7b\"<nil>\x7d".toList, false)] := by
  refine ⟨rfl, by decide, by decide, ?_, by decide⟩
  intro n
  cases n with
  | zero => rfl
  | succ m => cases m <;> rfl

end

end AuditLog
